import Mathlib

/-
Verification development for the gameloop engine (src/src/lib/model.ts).

The engine drives a discrete-tick simulation: a `Model` holds a mutable
`ModelState` (tick, data, two bounded FIFO caches, playback flags, a frame
timer handle) and a `Props` configuration (bounds, cache sizes, the user
supplied `initData` / `updateData` callbacks).  Public operations are
`play`, `pause`, `stop`, `setTick`, `setParams`, `setData`, plus the clock
driven `advance` callback.

Shallow embedding conventions:
  * The user data type `T` and the result type `U` are both taken to be
    `Int`; a JS value that may be `undefined` is `Option Int`.
  * `cachedData : Record<number, T>` is an association list
    `List (Int × Option Int)`; `cachedDataKeys : Set<number>` is a
    duplicate-free-by-construction `List Int` in insertion order;
    `cachedDataKeysQueue : number[]` is a `List Int`.
  * `requestAnimationFrame` is modelled by a counter of fresh handles
    (the HTML spec guarantees handles are positive integers); handle
    truthiness tests (`if (state.timer)`) are modelled exactly
    (`some h` with `h ≠ 0` is truthy).
  * The transition callback `updateData` returns its new data value plus
    the ordered list of capability calls (`complete r` / `stop` / `pause`)
    it performed during its execution.
  * `Model.stop` reassigns `this.state` to a fresh object produced by
    `reset`, while `updateToTick` keeps mutating the *old* object through
    its `state` parameter.  This aliasing is modelled by `ExecCtx`: `loc`
    is the state object captured by `updateToTick` (and by the `complete`
    closure), `detached = some s` records that `this.state` has been
    reassigned to `s`, and `detached = none` means `this.state` is still
    the same object as `loc`.
-/

namespace GameLoop

/-- JS param values: `boolean | number | string | null`. -/
inductive ParamV where
  | b (v : Bool)
  | n (v : Int)
  | s (v : String)
  | null
  deriving Repr, DecidableEq

/-- `Params = Record<string, Param>` as an association list. -/
abbrev Params := List (String × ParamV)

/-- `{ ...old, ...new }`: keys of `new` override those of `old`. -/
def mergeParams (old upd : Params) : Params :=
  old.filter (fun kv => !(upd.any (fun kv2 => kv2.1 == kv.1))) ++ upd

/-- JS `Set<number>.has`. -/
def setHas (s : List Int) (k : Int) : Bool := s.contains k

/-- JS `Set<number>.add` (insertion order, no duplicates). -/
def setAdd (s : List Int) (k : Int) : List Int :=
  if s.contains k then s else s ++ [k]

/-- JS `Set<number>.delete`. -/
def setDelete (s : List Int) (k : Int) : List Int :=
  s.filter (fun x => x != k)

/-- `Record<number, T>` read: `m[k]`, `undefined` (= `none`) when absent. -/
def recGet (m : List (Int × Option Int)) (k : Int) : Option Int :=
  match m.find? (fun kv => kv.1 == k) with
  | some kv => kv.2
  | none => none

/-- Whether the record has key `k` at all. -/
def recHasKey (m : List (Int × Option Int)) (k : Int) : Bool :=
  m.any (fun kv => kv.1 == k)

/-- `Record<number, T>` write: `m[k] = v`. -/
def recSet (m : List (Int × Option Int)) (k : Int) (v : Option Int) :
    List (Int × Option Int) :=
  if m.any (fun kv => kv.1 == k) then
    m.map (fun kv => if kv.1 == k then (k, v) else kv)
  else m ++ [(k, v)]

/-- `delete m[k]`. -/
def recDelete (m : List (Int × Option Int)) (k : Int) :
    List (Int × Option Int) :=
  m.filter (fun kv => kv.1 != k)

/-- `ModelState<T, U>` from src/src/lib/model.ts lines 4-17. -/
structure ModelState where
  cachedData : List (Int × Option Int)
  cachedDataKeys : List Int
  cachedDataKeysQueue : List Int
  canPlay : Bool
  data : Option Int
  isPlaying : Option Bool
  maxTick : Int
  params : Params
  results : List Int
  tick : Int
  time : Option Int
  timer : Option Nat
  deriving Repr, DecidableEq

/-- Arguments handed to the transition callback (`RenderDataArgs`). -/
structure UpdateArgs where
  cachedData : List (Int × Option Int)
  data : Option Int
  tick : Int
  params : Params

/-- A capability call performed by the transition callback during one
invocation: `complete(result)`, `stop()` or `pause()`. -/
inductive Cap where
  | complete (r : Int)
  | stop
  | pause

/-- Outcome of one invocation of the transition callback: the returned
data value and the capability calls it made, in order. -/
structure StepOut where
  data : Option Int
  calls : List Cap

/-- `ModelProps` (configuration) with the `defaultProps` of lines 64-75.
`initData` / `updateData` are the user callbacks; `render` is modelled
only by counting its invocations. -/
structure Props where
  clearsDataCacheOnReset : Bool := true
  clearsResultsCacheOnReset : Bool := true
  dataCacheSize : Nat := 0
  delay : Int := 0
  initialTick : Int := 0
  maxTime : Int := 100
  minTime : Int := 0
  resetsOnChange : Bool := true
  resultsCacheSize : Nat := 0
  ticksPerAnimation : Int := 1
  initialParams : Params := []
  initData : Params → Option Int := fun _ => some 0
  updateData : UpdateArgs → StepOut := fun a => ⟨a.data, []⟩

/-- `reset` (lines 219-258): builds a fresh state.  `params` comes from the
prior state when present (a JS object is always truthy), else from
`initialParams`; `tick = maxTick = initialTick`; the two caches are
cleared or carried over according to the flags; `canPlay := true`;
`isPlaying` carried over; `time`/`timer` cleared. -/
def reset (props : Props) (state : Option ModelState) : ModelState :=
  let params := match state with
    | some st => st.params
    | none => props.initialParams
  let tick := props.initialTick
  let dataCache :=
    if state.isNone || props.clearsDataCacheOnReset then
      (([] : List (Int × Option Int)), ([] : List Int), ([] : List Int))
    else
      match state with
      | some st => (st.cachedData, st.cachedDataKeys, st.cachedDataKeysQueue)
      | none => ([], [], [])
  let resultsCache :=
    if props.clearsResultsCacheOnReset || state.isNone then ([] : List Int)
    else
      match state with
      | some st => st.results
      | none => []
  { cachedData := dataCache.1
    cachedDataKeys := dataCache.2.1
    cachedDataKeysQueue := dataCache.2.2
    canPlay := true
    data := props.initData params
    isPlaying := match state with
      | some st => st.isPlaying
      | none => none
    maxTick := tick
    params := params
    results := resultsCache
    tick := tick
    time := none
    timer := none }

/-- `checkCanPlay` (lines 267-278): returns whether the model can go
further and the (possibly mutated) state — when `canPlay` was already
false or `tick > maxTime`, both `canPlay` and `isPlaying` are cleared. -/
def checkCanPlay (tick maxTime : Int) (st : ModelState) : Bool × ModelState :=
  if st.canPlay = false ∨ maxTime < tick then
    (false, { st with canPlay := false, isPlaying := some false })
  else (true, st)

/-- `stopAndCancelTimer` (lines 283-288): `if (state.timer)` — the handle
is cleared only when truthy (nonzero). -/
def stopAndCancelTimer (st : ModelState) : ModelState :=
  match st.timer with
  | some h => if h ≠ 0 then { st with timer := none } else st
  | none => st

/-- The state mutation performed by `complete` (lines 297-311) before it
invokes the supplied stop capability: push the result if
`resultsCacheSize > 0`, shift the oldest out when over the bound, and
clear `canPlay`. -/
def completeCore (result : Int) (props : Props) (st : ModelState) : ModelState :=
  let st1 :=
    if 0 < props.resultsCacheSize then
      { st with results :=
          if props.resultsCacheSize < (st.results ++ [result]).length then
            (st.results ++ [result]).tail
          else st.results ++ [result] }
    else st
  { st1 with canPlay := false }

/-- `complete` (lines 297-311): mutate the captured state, then invoke the
supplied stop capability. -/
def complete (result : Int) (props : Props) (st : ModelState)
    (stop : ModelState → ModelState) : ModelState :=
  stop (completeCore result props st)

/-- Execution context of one `updateToTick` call: `loc` is the state
object the function (and the `complete` closure) captured; `detached`
records the value of `this.state` when `Model.stop` has reassigned it
(`none` while `this.state` is still the captured object). -/
structure ExecCtx where
  loc : ModelState
  detached : Option ModelState
  deriving Repr, DecidableEq

/-- Mutate `this.state`. -/
def ExecCtx.modThis (ctx : ExecCtx) (f : ModelState → ModelState) : ExecCtx :=
  match ctx.detached with
  | some s => { ctx with detached := some (f s) }
  | none => { ctx with loc := f ctx.loc }

/-- The `pause` capability = `Model.pause` (lines 171-174), acting on
`this.state`. -/
def ctxPause (ctx : ExecCtx) : ExecCtx :=
  ctx.modThis (fun s => { stopAndCancelTimer s with isPlaying := some false })

/-- The `stop` capability = `Model.stop` (lines 154-158): cancel the
timer and clear `isPlaying` on `this.state`, then reassign `this.state`
to a fresh `reset` state (detaching it from the captured object). -/
def ctxStop (props : Props) (ctx : ExecCtx) : ExecCtx :=
  match ctx.detached with
  | some s =>
      let s1 := { stopAndCancelTimer s with isPlaying := some false }
      { ctx with detached := some (reset props (some s1)) }
  | none =>
      let l1 := { stopAndCancelTimer ctx.loc with isPlaying := some false }
      { loc := l1, detached := some (reset props (some l1)) }

/-- The `complete` capability: its closure captured the state object
passed into `updateToTick` (`loc`), mutates it, then invokes the stop
capability (which acts on `this.state`). -/
def ctxComplete (r : Int) (props : Props) (ctx : ExecCtx) : ExecCtx :=
  ctxStop props { ctx with loc := completeCore r props ctx.loc }

/-- Apply the capability calls made during one transition invocation. -/
def applyCalls (props : Props) (calls : List Cap) (ctx : ExecCtx) : ExecCtx :=
  calls.foldl
    (fun c e =>
      match e with
      | Cap.complete r => ctxComplete r props c
      | Cap.stop => ctxStop props c
      | Cap.pause => ctxPause c)
    ctx

/-- The data-cache update of `updateToTick` (lines 386-399), executed when
`dataCacheSize > 0` after a new `tick`/`data` pair was computed: record
`maxTick`, push the tick onto the queue; if the queue is within the bound
add the tick to the key set, otherwise shift the oldest tick out and —
only when that tick is truthy, i.e. nonzero — delete its entries; finally
store the data. -/
def cacheStep (props : Props) (tick : Int) (data : Option Int)
    (st : ModelState) : ModelState :=
  if 0 < props.dataCacheSize then
    let st1 := { st with maxTick := tick,
                         cachedDataKeysQueue := st.cachedDataKeysQueue ++ [tick] }
    let st2 :=
      if st1.cachedDataKeysQueue.length ≤ props.dataCacheSize then
        { st1 with cachedDataKeys := setAdd st1.cachedDataKeys tick }
      else
        match st1.cachedDataKeysQueue with
        | [] => st1
        | toRemove :: rest =>
            if toRemove ≠ 0 then
              { st1 with cachedDataKeysQueue := rest,
                         cachedData := recDelete st1.cachedData toRemove,
                         cachedDataKeys := setDelete st1.cachedDataKeys toRemove }
            else { st1 with cachedDataKeysQueue := rest }
    { st2 with cachedData := recSet st2.cachedData tick data }
  else st

/-- Arguments passed to the transition callback in the loop body
(`tick` is the already incremented tick, `data` the loop's local data). -/
def stepArgs (ctx : ExecCtx) (tick : Int) (data : Option Int) : UpdateArgs :=
  ⟨ctx.loc.cachedData, data, tick, ctx.loc.params⟩

/-- One iteration of the `while` body of `updateToTick` (lines 362-408),
minus the `checkCanPlay` test of the loop guard: invoke the transition
callback (applying its capability calls), run the cache update, store
`data`/`tick`, and clear `isPlaying` when `shouldStop` is set.
`tick1` is the already incremented tick. -/
def stepCtx (props : Props) (ss : Bool) (tick1 : Int) (data : Option Int)
    (ctx : ExecCtx) : ExecCtx :=
  let out := props.updateData (stepArgs ctx tick1 data)
  let ctx2 := applyCalls props out.calls ctx
  let ctx3 : ExecCtx := { ctx2 with loc := cacheStep props tick1 out.data ctx2.loc }
  let ctx4 : ExecCtx := { ctx3 with loc := { ctx3.loc with data := out.data, tick := tick1 } }
  if ss then { ctx4 with loc := { ctx4.loc with isPlaying := some false } } else ctx4

/-- The `while` loop of `updateToTick` (lines 362-408), with explicit fuel
(the loop increments `tick` once per iteration, so
`(target - tick).toNat` iterations always suffice).  Also counts the
invocations of the transition callback and of the render hook. -/
def stepLoop (props : Props) (target : Int) (ss : Bool) :
    Nat → Int → Option Int → ExecCtx → Nat → Nat → ExecCtx × Nat × Nat
  | 0, _, _, ctx, u, r => (ctx, u, r)
  | fuel+1, tick, data, ctx, u, r =>
    if tick < target then
      if (checkCanPlay tick props.maxTime ctx.loc).1 then
        stepLoop props target ss fuel (tick + 1)
          (props.updateData (stepArgs ctx (tick + 1) data)).data
          (stepCtx props ss (tick + 1) data ctx) (u + 1) (r + 1)
      else ({ ctx with loc := (checkCanPlay tick props.maxTime ctx.loc).2 }, u, r)
    else (ctx, u, r)

/-- `updateToTick` (lines 323-410).  Fast path: when `target` is in
`cachedDataKeys` the source assigns the *local variables* `data` and
`tick` and returns — the state is untouched.  Iterative path: resume from
`maxTick` if it is itself cached, else from the current `tick`, and run
the stepping loop.  Returns the context plus the number of transition
and render invocations. -/
def updateToTick (props : Props) (target : Int) (ss : Bool) (ctx : ExecCtx) :
    ExecCtx × Nat × Nat :=
  if setHas ctx.loc.cachedDataKeys target then
    (ctx, 0, 0)
  else
    let resume :=
      if setHas ctx.loc.cachedDataKeys ctx.loc.maxTick then ctx.loc.maxTick
      else ctx.loc.tick
    stepLoop props target ss (target - resume).toNat resume ctx.loc.data ctx 0 0

/-- A `Model` instance together with the host clock: `nextHandle` is the
next (positive) `requestAnimationFrame` handle the host will hand out. -/
structure Machine where
  state : ModelState
  nextHandle : Nat
  deriving Repr, DecidableEq

/-- The constructor (lines 81-90): `this.state = reset(this.props)`. -/
def Machine.init (props : Props) : Machine :=
  ⟨reset props none, 1⟩

/-- `Model.play` (lines 163-166): set `isPlaying` and request a frame. -/
def play (m : Machine) : Machine :=
  { state := { m.state with isPlaying := some true, timer := some m.nextHandle }
    nextHandle := m.nextHandle + 1 }

/-- `Model.pause` (lines 171-174). -/
def pause (m : Machine) : Machine :=
  { m with state := { stopAndCancelTimer m.state with isPlaying := some false } }

/-- `Model.stop` (lines 154-158). -/
def stop (props : Props) (m : Machine) : Machine :=
  let st := { stopAndCancelTimer m.state with isPlaying := some false }
  { m with state := reset props (some st) }

/-- `Model.setData` (lines 132-139): replace `data`, cancel the timer,
clear `isPlaying`, reset `tick` to `initialTick`. -/
def setData (props : Props) (d : Option Int) (m : Machine) : Machine :=
  let st := stopAndCancelTimer { m.state with data := d }
  { m with state := { st with isPlaying := some false, tick := props.initialTick } }

/-- `Model.setParams` (lines 145-150): merge the update into `params`;
when `resetsOnChange` the source calls `reset(this.props, this.state)`
but discards its return value, so the state is not otherwise changed. -/
def setParams (props : Props) (upd : Params) (m : Machine) : Machine :=
  let st := { m.state with params := mergeParams m.state.params upd }
  let _discarded := if props.resetsOnChange then some (reset props (some st)) else none
  { m with state := st }

/-- `Model.setTick` (lines 192-203): cancel the timer, then run the
tick-stepper with `shouldStop = true`; afterwards `this.state` is the
detached state if a stop capability fired, else the original object. -/
def setTick (props : Props) (target : Int) (m : Machine) : Machine :=
  let st := stopAndCancelTimer m.state
  let res := updateToTick props target true ⟨st, none⟩
  { m with state := res.1.detached.getD res.1.loc }

/-- `Model.advance` (lines 96-125), the clock callback: if the stop
condition allows play, anchor `time`, step when the delay has elapsed
(re-anchoring `time`), and re-request a frame while `isPlaying`. -/
def advance (props : Props) (timestamp : Int) (m : Machine) : Machine :=
  let c := checkCanPlay m.state.tick props.maxTime m.state
  if c.1 then
    let st0 := if c.2.time.isNone then { c.2 with time := some timestamp } else c.2
    let st1 :=
      if props.delay ≤ timestamp - st0.time.getD timestamp then
        let st2 := { st0 with time := some timestamp }
        let res := updateToTick props (st2.tick + props.ticksPerAnimation) false ⟨st2, none⟩
        res.1.detached.getD res.1.loc
      else st0
    if st1.isPlaying = some true then
      { state := { st1 with timer := some m.nextHandle }, nextHandle := m.nextHandle + 1 }
    else { m with state := st1 }
  else { m with state := c.2 }

/-! ### Concrete configurations used by the scenario claims -/

/-- The spec's scenario configuration: `initData() = 0`,
`updateData({data}) = (data ?? 0) + 1`, `maxTime = 10`, everything else
defaulted. -/
def propsA : Props :=
  { maxTime := 10
    initData := fun _ => some 0
    updateData := fun a => ⟨some (a.data.getD 0 + 1), []⟩ }

/-- The scenario run: `play()` followed by clock callbacks (all at
timestamp 0) until the stop condition has tripped (the 12th callback). -/
def runA : Machine :=
  (List.range 12).foldl (fun m _ => advance propsA 0 m) (play (Machine.init propsA))

/-- Incrementer with a data cache of size 1. -/
def propsB : Props :=
  { maxTime := 10, dataCacheSize := 1
    initData := fun _ => some 0
    updateData := fun a => ⟨some (a.data.getD 0 + 1), []⟩ }

/-- Incrementer with a data cache of size 10. -/
def propsC : Props :=
  { maxTime := 10, dataCacheSize := 10
    initData := fun _ => some 0
    updateData := fun a => ⟨some (a.data.getD 0 + 1), []⟩ }

/-- A machine that has stepped through ticks 1, 2, 3 with cache size 10:
`tick = 3`, `data = 3`, ticks 1-3 cached. -/
def mSeek : Machine := setTick propsC 3 (Machine.init propsC)

/-- Incrementer starting at `initialTick = -1` with cache size 1, so that
tick 0 is the first cached tick and the first one evicted. -/
def propsZ : Props :=
  { maxTime := 10, dataCacheSize := 1, initialTick := -1
    initData := fun _ => some 0
    updateData := fun a => ⟨some (a.data.getD 0 + 1), []⟩ }

/-- A configuration whose only non-default entry is a results buffer of
size 2. -/
def propsR : Props := { resultsCacheSize := 2 }

/-! ### List helpers -/

/-- The last `n` entries of a list. -/
def takeLast (n : Nat) (l : List α) : List α := l.drop (l.length - n)

theorem takeLast_of_le {n : Nat} {l : List α} (h : l.length ≤ n) :
    takeLast n l = l := by
  simp [takeLast, Nat.sub_eq_zero_of_le h]

theorem takeLast_length_le (n : Nat) (l : List α) :
    (takeLast n l).length ≤ n := by
  simp only [takeLast, List.length_drop]
  omega

theorem takeLast_length_of_lt {n : Nat} {l : List α} (h : n < l.length) :
    (takeLast n l).length = n := by
  simp only [takeLast, List.length_drop]
  omega

theorem takeLast_append_takeLast (n : Nat) (l rs : List α) :
    takeLast n (takeLast n l ++ rs) = takeLast n (l ++ rs) := by
  rcases le_or_lt l.length n with h | h
  · rw [takeLast_of_le h]
  · unfold takeLast
    rw [List.length_append, List.length_append, List.length_drop]
    have e1 : l.length - (l.length - n) + rs.length - n = rs.length := by omega
    have e3 : l.length + rs.length - n = (l.length - n) + rs.length := by omega
    rw [e1, e3, ← List.drop_drop,
      List.drop_append_of_le_length (show l.length - n ≤ l.length by omega)]

/-! ### The completion signal (C9) -/

theorem completeCore_of_pos {props : Props} (r : Int) (st : ModelState)
    (hn : 0 < props.resultsCacheSize)
    (hlen : st.results.length ≤ props.resultsCacheSize) :
    completeCore r props st =
      { st with results := takeLast props.resultsCacheSize (st.results ++ [r]),
                canPlay := false } := by
  unfold completeCore
  rw [if_pos hn]
  rcases eq_or_lt_of_le hlen with heq | hlt
  · have hc : props.resultsCacheSize < (st.results ++ [r]).length := by
      simp [List.length_append, ← heq]
    rw [if_pos hc]
    have : takeLast props.resultsCacheSize (st.results ++ [r])
        = (st.results ++ [r]).tail := by
      show (st.results ++ [r]).drop ((st.results ++ [r]).length - props.resultsCacheSize)
          = (st.results ++ [r]).tail
      have : (st.results ++ [r]).length - props.resultsCacheSize = 1 := by
        simp only [List.length_append, List.length_cons, List.length_nil]
        omega
      rw [this, List.drop_one]
    rw [this]
  · have hc : ¬ props.resultsCacheSize < (st.results ++ [r]).length := by
      simp only [List.length_append, List.length_cons, List.length_nil]
      omega
    rw [if_neg hc]
    have hle : (st.results ++ [r]).length ≤ props.resultsCacheSize := by
      simp only [List.length_append, List.length_cons, List.length_nil]
      omega
    rw [takeLast_of_le hle]

theorem completeCore_of_zero {props : Props} (r : Int) (st : ModelState)
    (hn : props.resultsCacheSize = 0) :
    completeCore r props st = { st with canPlay := false } := by
  unfold completeCore
  rw [if_neg (by omega)]

theorem foldl_complete_results {props : Props}
    (hn : 0 < props.resultsCacheSize) :
    ∀ (rs : List Int) (st : ModelState),
      st.results.length ≤ props.resultsCacheSize →
      (rs.foldl (fun s r => complete r props s id) st).results
        = takeLast props.resultsCacheSize (st.results ++ rs) := by
  intro rs
  induction rs with
  | nil =>
      intro st h
      simp only [List.foldl_nil, List.append_nil]
      rw [takeLast_of_le h]
  | cons r rs ih =>
      intro st h
      rw [List.foldl_cons]
      have hstep : complete r props st id
          = { st with results := takeLast props.resultsCacheSize (st.results ++ [r]),
                      canPlay := false } := by
        show id (completeCore r props st) = _
        rw [id_eq, completeCore_of_pos r st hn h]
      rw [hstep, ih _ (takeLast_length_le _ _)]
      show takeLast props.resultsCacheSize
          (takeLast props.resultsCacheSize (st.results ++ [r]) ++ rs)
        = takeLast props.resultsCacheSize (st.results ++ (r :: rs))
      rw [takeLast_append_takeLast, List.append_cons st.results r rs]

/-- C9: `complete(result)` appends the result exactly when
`resultsCacheSize > 0` (evicting the oldest entry when the buffer would
exceed the bound, keeping at most `resultsCacheSize` entries, most recent
last), sets `canPlay = false`, and invokes the supplied stop capability;
iterating completions (with a results-preserving stop capability) from an
empty buffer leaves exactly the `n` most recent results, oldest first. -/
theorem complete_spec :
    (∀ (props : Props) (r : Int) (st : ModelState) (stop : ModelState → ModelState),
      0 < props.resultsCacheSize →
      st.results.length ≤ props.resultsCacheSize →
      complete r props st stop
        = stop { st with
            results := takeLast props.resultsCacheSize (st.results ++ [r]),
            canPlay := false }
      ∧ (takeLast props.resultsCacheSize (st.results ++ [r])).length
          ≤ props.resultsCacheSize)
    ∧ (∀ (props : Props) (r : Int) (st : ModelState) (stop : ModelState → ModelState),
      props.resultsCacheSize = 0 →
      complete r props st stop = stop { st with canPlay := false })
    ∧ (∀ (props : Props) (rs : List Int) (st : ModelState),
      0 < props.resultsCacheSize →
      st.results = [] →
      props.resultsCacheSize < rs.length →
      (rs.foldl (fun s r => complete r props s id) st).results
          = takeLast props.resultsCacheSize rs
      ∧ (takeLast props.resultsCacheSize rs).length = props.resultsCacheSize) := by
  refine ⟨?_, ?_, ?_⟩
  · intro props r st stop hn hlen
    constructor
    · show stop (completeCore r props st) = _
      rw [completeCore_of_pos r st hn hlen]
    · exact takeLast_length_le _ _
  · intro props r st stop hn
    show stop (completeCore r props st) = _
    rw [completeCore_of_zero r st hn]
  · intro props rs st hn hempty hlen
    constructor
    · rw [foldl_complete_results hn rs st (by rw [hempty]; exact Nat.zero_le _),
        hempty, List.nil_append]
    · exact takeLast_length_of_lt hlen

/-- C9 witness: with `resultsCacheSize = 2`, three completions from the
fresh state leave the two most recent results, oldest first. -/
theorem complete_spec_witness :
    ([1, 2, 3].foldl (fun s r => complete r propsR s id) (reset propsR none)).results
      = takeLast 2 [1, 2, 3] := by
  have h := complete_spec.2.2 propsR [1, 2, 3] (reset propsR none)
    (by decide) (by decide) (by decide)
  exact h.1

/-! ### Basic facts about the stop condition and the timer -/

theorem checkCanPlay_of_false {st : ModelState} (h : st.canPlay = false)
    (tick maxTime : Int) :
    checkCanPlay tick maxTime st
      = (false, { st with canPlay := false, isPlaying := some false }) := by
  unfold checkCanPlay
  rw [if_pos (Or.inl h)]

theorem stopAndCancelTimer_cases (st : ModelState) :
    stopAndCancelTimer st = st ∨ stopAndCancelTimer st = { st with timer := none } := by
  unfold stopAndCancelTimer
  split
  · split
    · exact Or.inr rfl
    · exact Or.inl rfl
  · exact Or.inl rfl

/-- When `canPlay` is already false, the stepping loop performs no
iteration: it either leaves the context untouched (when `tick < target`
fails first) or only re-clears the two playback flags. -/
theorem stepLoop_of_false {props : Props} {target : Int} {ss : Bool}
    {fuel : Nat} {tick : Int} {data : Option Int} {ctx : ExecCtx} {u r : Nat}
    (h : ctx.loc.canPlay = false) :
    (stepLoop props target ss fuel tick data ctx u r).1 = ctx ∨
    (stepLoop props target ss fuel tick data ctx u r).1 =
      { ctx with loc := { ctx.loc with canPlay := false, isPlaying := some false } } := by
  cases fuel with
  | zero => exact Or.inl rfl
  | succ n =>
    rw [stepLoop]
    by_cases hlt : tick < target
    · rw [if_pos hlt, checkCanPlay_of_false h]
      exact Or.inr rfl
    · rw [if_neg hlt]
      exact Or.inl rfl

theorem updateToTick_of_false {props : Props} {target : Int} {ss : Bool}
    {ctx : ExecCtx} (h : ctx.loc.canPlay = false) :
    (updateToTick props target ss ctx).1 = ctx ∨
    (updateToTick props target ss ctx).1 =
      { ctx with loc := { ctx.loc with canPlay := false, isPlaying := some false } } := by
  by_cases hf : setHas ctx.loc.cachedDataKeys target = true
  · left
    rw [updateToTick, if_pos hf]
  · rw [updateToTick, if_neg hf]
    exact stepLoop_of_false h

/-- A clock callback on a stopped model only re-clears the flags. -/
theorem advance_of_false {props : Props} {ts : Int} {m : Machine}
    (h : m.state.canPlay = false) :
    advance props ts m
      = { m with state := { m.state with canPlay := false, isPlaying := some false } } := by
  unfold advance
  rw [checkCanPlay_of_false h]
  rfl

theorem setTick_state_of_false {props : Props} {t : Int} {m : Machine}
    (h : m.state.canPlay = false) :
    (setTick props t m).state = stopAndCancelTimer m.state ∨
    (setTick props t m).state =
      { stopAndCancelTimer m.state with canPlay := false, isPlaying := some false } := by
  have hst : (stopAndCancelTimer m.state).canPlay = false := by
    rcases stopAndCancelTimer_cases m.state with hc | hc <;> rw [hc] <;> exact h
  have := @updateToTick_of_false props t true ⟨stopAndCancelTimer m.state, none⟩ hst
  rcases this with hu | hu
  · left
    show (updateToTick props t true ⟨stopAndCancelTimer m.state, none⟩).1.detached.getD
      (updateToTick props t true ⟨stopAndCancelTimer m.state, none⟩).1.loc = _
    rw [hu]
    rfl
  · right
    show (updateToTick props t true ⟨stopAndCancelTimer m.state, none⟩).1.detached.getD
      (updateToTick props t true ⟨stopAndCancelTimer m.state, none⟩).1.loc = _
    rw [hu]
    rfl

/-- C7: `canPlay` is sticky-false: every public operation other than the
reset runners (`stop`, construction) leaves it false, and a subsequent
`play()` or clock callback leaves `tick` unchanged.  (`setParams` is
covered in both flag positions; in the source it never runs an effective
reset, so it too preserves `canPlay = false`.) -/
theorem canPlay_sticky (props : Props) (m : Machine)
    (h : m.state.canPlay = false) :
    ((play m).state.canPlay = false ∧ (play m).state.tick = m.state.tick)
    ∧ (pause m).state.canPlay = false
    ∧ (∀ d, (setData props d m).state.canPlay = false)
    ∧ (∀ u, (setParams props u m).state.canPlay = false)
    ∧ (∀ t, (setTick props t m).state.canPlay = false)
    ∧ (∀ ts, (advance props ts m).state.canPlay = false
        ∧ (advance props ts m).state.tick = m.state.tick) := by
  refine ⟨⟨h, rfl⟩, ?_, ?_, ?_, ?_, ?_⟩
  · show (stopAndCancelTimer m.state).canPlay = false
    rcases stopAndCancelTimer_cases m.state with hc | hc <;> rw [hc] <;> exact h
  · intro d
    show (stopAndCancelTimer { m.state with data := d }).canPlay = false
    rcases stopAndCancelTimer_cases { m.state with data := d } with hc | hc <;>
      rw [hc] <;> exact h
  · intro u
    exact h
  · intro t
    rcases @setTick_state_of_false props t m h with hs | hs
    · rw [hs]
      rcases stopAndCancelTimer_cases m.state with hc | hc <;> rw [hc] <;> exact h
    · rw [hs]
  · intro ts
    rw [advance_of_false h]
    exact ⟨rfl, rfl⟩

/-- C7 witness: on the completed scenario run (`canPlay = false`),
`play` and a further clock callback leave `canPlay` false and the tick
unchanged. -/
theorem canPlay_sticky_witness :
    (play runA).state.canPlay = false ∧ (play runA).state.tick = runA.state.tick
    ∧ (advance propsA 99 runA).state.canPlay = false
    ∧ (advance propsA 99 runA).state.tick = runA.state.tick := by
  have h := canPlay_sticky propsA runA (by decide)
  exact ⟨h.1.1, h.1.2, (h.2.2.2.2.2 99).1, (h.2.2.2.2.2 99).2⟩

/-- C8: an uncached backward seek is a no-op: when the target is not in
`cachedDataKeys` and does not exceed the resume tick (`maxTick` if
cached, else the current tick), `updateToTick` returns the context
unchanged, invokes neither the transition function nor the render hook,
and (being a total function) raises no error. -/
theorem uncached_backward_seek_noop (props : Props) (ctx : ExecCtx)
    (target : Int) (ss : Bool)
    (h1 : setHas ctx.loc.cachedDataKeys target = false)
    (h2 : target ≤ if setHas ctx.loc.cachedDataKeys ctx.loc.maxTick
          then ctx.loc.maxTick else ctx.loc.tick) :
    updateToTick props target ss ctx = (ctx, 0, 0) := by
  rw [updateToTick, if_neg (by simp [h1])]
  show stepLoop props target ss
    (target - (if setHas ctx.loc.cachedDataKeys ctx.loc.maxTick then ctx.loc.maxTick
      else ctx.loc.tick)).toNat
    (if setHas ctx.loc.cachedDataKeys ctx.loc.maxTick then ctx.loc.maxTick
      else ctx.loc.tick) ctx.loc.data ctx 0 0 = (ctx, 0, 0)
  rw [Int.toNat_of_nonpos (by omega)]
  rfl

/-- C8 witness: on the machine that has stepped to tick 3 with ticks 1-3
cached, seeking to the uncached past tick 0 changes nothing. -/
theorem uncached_backward_seek_noop_witness :
    updateToTick propsC 0 true ⟨mSeek.state, none⟩ = (⟨mSeek.state, none⟩, 0, 0) :=
  uncached_backward_seek_noop propsC ⟨mSeek.state, none⟩ 0 true
    (by decide) (by decide)

set_option maxRecDepth 8000

/-- C1: the scenario run (`initData() = 0`, `updateData = (data ?? 0) + 1`,
`maxTime = 10`, defaults otherwise; `play()` then clock callbacks until
the stop condition trips) ends with `tick = 11` and `data = 11` — not
`tick = 10`, `data = 10` as the spec and the repository's own test
expect — because `checkCanPlay` still allows a step when
`tick = maxTime`.  `isPlaying` and `canPlay` do end up false. -/
theorem scenario_run_final_state :
    runA.state.tick = 11 ∧ runA.state.data = some 11
    ∧ runA.state.canPlay = false ∧ runA.state.isPlaying = some false
    ∧ ¬ (runA.state.tick = 10 ∧ runA.state.data = some 10) := by
  decide

/-- C2: with `dataCacheSize = 1`, after stepping through ticks 1 and 2 the
queue holds `[2]` but `cachedDataKeys` is empty — the eviction branch of
`updateToTick` never adds the new tick to the key set, so the claimed
equality `cachedDataKeys = set(cachedDataKeysQueue)` fails (the length
bound itself holds here). -/
theorem cache_keys_diverge_from_queue :
    (setTick propsB 2 (Machine.init propsB)).state.cachedDataKeysQueue = [2]
    ∧ (setTick propsB 2 (Machine.init propsB)).state.cachedDataKeys = []
    ∧ recGet (setTick propsB 2 (Machine.init propsB)).state.cachedData 2 = some 2
    ∧ setHas (setTick propsB 2 (Machine.init propsB)).state.cachedDataKeys 2 = false := by
  decide

/-- C3: `setParams` discards the value returned by `reset`, so with
`resetsOnChange = true` the engine state is not re-derived: after seeking
to tick 5 and then calling `setParams`, `tick` and `data` keep their old
values, while an actual reset would have produced `tick = 0`,
`data = 0`. -/
theorem setParams_discards_reset :
    propsA.resetsOnChange = true
    ∧ (setParams propsA [] (setTick propsA 5 (Machine.init propsA))).state.tick = 5
    ∧ (setParams propsA [] (setTick propsA 5 (Machine.init propsA))).state.data = some 5
    ∧ (reset propsA (some (setTick propsA 5 (Machine.init propsA)).state)).tick = 0
    ∧ (reset propsA (some (setTick propsA 5 (Machine.init propsA)).state)).data = some 0 := by
  decide

/-- C4: the fast path of `updateToTick` assigns the *local* variables
`data`/`tick` and returns, leaving the state untouched: on a machine at
tick 3 with tick 2 cached (value 2), seeking to 2 leaves the whole
machine unchanged (`tick` stays 3, `data` stays 3) even though the cache
holds the sought entry; it also invokes neither the transition function
nor the render hook. -/
theorem cached_seek_leaves_state_unchanged :
    setHas mSeek.state.cachedDataKeys 2 = true
    ∧ recGet mSeek.state.cachedData 2 = some 2
    ∧ setTick propsC 2 mSeek = mSeek
    ∧ (setTick propsC 2 mSeek).state.tick = 3
    ∧ (setTick propsC 2 mSeek).state.data = some 3
    ∧ updateToTick propsC 2 true ⟨mSeek.state, none⟩ = (⟨mSeek.state, none⟩, 0, 0) := by
  decide

/-- C5 counterexample: `setParams` does not cancel the outstanding
scheduled callback — after `play()` the timer handle is 1, and a
subsequent `setParams` (with `resetsOnChange = true`) leaves it in
place. -/
theorem setParams_leaves_timer :
    (play (Machine.init propsA)).state.timer = some 1
    ∧ propsA.resetsOnChange = true
    ∧ (setParams propsA [("a", ParamV.n 1)] (play (Machine.init propsA))).state.timer
        = some 1 := by
  decide

/-- C6 counterexample: the completed scenario run satisfies
`canPlay = false → isPlaying = false`, but `play` sets
`isPlaying = true` unconditionally, breaking the implication. -/
theorem play_breaks_flag_invariant :
    runA.state.canPlay = false ∧ runA.state.isPlaying = some false
    ∧ (play runA).state.canPlay = false
    ∧ (play runA).state.isPlaying = some true := by
  decide


theorem cacheStep_preserves (props : Props) (tick : Int) (data : Option Int) (st : ModelState) :
    (cacheStep props tick data st).canPlay = st.canPlay
    ∧ (cacheStep props tick data st).isPlaying = st.isPlaying
    ∧ (cacheStep props tick data st).timer = st.timer
    ∧ (cacheStep props tick data st).results = st.results
    ∧ (cacheStep props tick data st).time = st.time
    ∧ (cacheStep props tick data st).params = st.params
    ∧ (cacheStep props tick data st).data = st.data
    ∧ (cacheStep props tick data st).tick = st.tick := by
  unfold cacheStep
  dsimp only
  split
  · split
    · exact ⟨rfl, rfl, rfl, rfl, rfl, rfl, rfl, rfl⟩
    · split
      · exact ⟨rfl, rfl, rfl, rfl, rfl, rfl, rfl, rfl⟩
      · split
        · exact ⟨rfl, rfl, rfl, rfl, rfl, rfl, rfl, rfl⟩
        · exact ⟨rfl, rfl, rfl, rfl, rfl, rfl, rfl, rfl⟩
  · exact ⟨rfl, rfl, rfl, rfl, rfl, rfl, rfl, rfl⟩

theorem completeCore_timer (r : Int) (props : Props) (st : ModelState) :
    (completeCore r props st).timer = st.timer := by
  unfold completeCore
  dsimp only
  split <;> rfl

theorem reset_canPlay (props : Props) (s : Option ModelState) :
    (reset props s).canPlay = true := rfl

theorem reset_timer (props : Props) (s : Option ModelState) :
    (reset props s).timer = none := rfl



theorem applyCalls_pres (props : Props) (P : ExecCtx → Prop)
    (hp : ∀ ctx, P ctx → P (ctxPause ctx))
    (hs : ∀ ctx, P ctx → P (ctxStop props ctx))
    (hc : ∀ r ctx, P ctx → P (ctxComplete r props ctx)) :
    ∀ (calls : List Cap) (ctx : ExecCtx), P ctx → P (applyCalls props calls ctx) := by
  intro calls
  induction calls with
  | nil => intro ctx h; exact h
  | cons c cs ih =>
    intro ctx h
    cases c with
    | complete r => exact ih _ (hc r ctx h)
    | stop => exact ih _ (hs ctx h)
    | pause => exact ih _ (hp ctx h)

theorem stepLoop_pres (props : Props) (target : Int) (ss : Bool) (P : ExecCtx → Prop)
    (h1 : ∀ (tick : Int) (ctx : ExecCtx), P ctx →
      P { ctx with loc := (checkCanPlay tick props.maxTime ctx.loc).2 })
    (h2 : ∀ (tick : Int) (data : Option Int) (ctx : ExecCtx), P ctx →
      P (applyCalls props (props.updateData (stepArgs ctx tick data)).calls ctx))
    (h3 : ∀ (tick : Int) (data : Option Int) (ctx : ExecCtx), P ctx →
      P { ctx with loc := cacheStep props tick data ctx.loc })
    (h4 : ∀ (data : Option Int) (tick : Int) (ctx : ExecCtx), P ctx →
      P { ctx with loc := { ctx.loc with data := data, tick := tick } })
    (h5 : ∀ ctx : ExecCtx, P ctx → P { ctx with loc := { ctx.loc with isPlaying := some false } }) :
    ∀ (fuel : Nat) (tick : Int) (data : Option Int) (ctx : ExecCtx) (u r : Nat),
      P ctx → P (stepLoop props target ss fuel tick data ctx u r).1 := by
  have hstep : ∀ (tick : Int) (data : Option Int) (ctx : ExecCtx), P ctx →
      P (stepCtx props ss tick data ctx) := by
    intro tick data ctx hP
    have h2x := h2 tick data ctx hP
    have h3x := h3 tick (props.updateData (stepArgs ctx tick data)).data _ h2x
    have h4x := h4 (props.updateData (stepArgs ctx tick data)).data tick _ h3x
    unfold stepCtx
    dsimp only
    split
    · exact h5 _ h4x
    · exact h4x
  intro fuel
  induction fuel with
  | zero => intro tick data ctx u r h; exact h
  | succ n ih =>
    intro tick data ctx u r h
    rw [stepLoop]
    by_cases hlt : tick < target
    · rw [if_pos hlt]
      by_cases hcc : (checkCanPlay tick props.maxTime ctx.loc).1 = true
      · rw [if_pos hcc]
        exact ih _ _ _ _ _ (hstep _ _ _ h)
      · rw [if_neg hcc]
        exact h1 _ _ h
    · rw [if_neg hlt]
      exact h

theorem updateToTick_pres (props : Props) (target : Int) (ss : Bool) (P : ExecCtx → Prop)
    (h1 : ∀ (tick : Int) (ctx : ExecCtx), P ctx →
      P { ctx with loc := (checkCanPlay tick props.maxTime ctx.loc).2 })
    (h2 : ∀ (tick : Int) (data : Option Int) (ctx : ExecCtx), P ctx →
      P (applyCalls props (props.updateData (stepArgs ctx tick data)).calls ctx))
    (h3 : ∀ (tick : Int) (data : Option Int) (ctx : ExecCtx), P ctx →
      P { ctx with loc := cacheStep props tick data ctx.loc })
    (h4 : ∀ (data : Option Int) (tick : Int) (ctx : ExecCtx), P ctx →
      P { ctx with loc := { ctx.loc with data := data, tick := tick } })
    (h5 : ∀ ctx : ExecCtx, P ctx → P { ctx with loc := { ctx.loc with isPlaying := some false } }) :
    ∀ ctx : ExecCtx, P ctx → P (updateToTick props target ss ctx).1 := by
  intro ctx h
  unfold updateToTick
  dsimp only
  split
  · exact h
  · exact stepLoop_pres props target ss P h1 h2 h3 h4 h5 _ _ _ _ _ _ h



/-- Invariant (c) of the spec: `canPlay = false` implies `isPlaying = false`. -/
def flagInv (st : ModelState) : Prop := st.canPlay = false → st.isPlaying = some false

def CtxFlag (ctx : ExecCtx) : Prop :=
  (ctx.detached = none → flagInv ctx.loc)
  ∧ ∀ s, ctx.detached = some s → s.canPlay = true

theorem stopAndCancelTimer_canPlay (st : ModelState) :
    (stopAndCancelTimer st).canPlay = st.canPlay := by
  rcases stopAndCancelTimer_cases st with h | h <;> rw [h]

theorem stopAndCancelTimer_flagInv {st : ModelState} (h : flagInv st) :
    flagInv (stopAndCancelTimer st) := by
  rcases stopAndCancelTimer_cases st with hc | hc <;> rw [hc] <;> exact h

theorem ctxPause_flag {ctx : ExecCtx} (h : CtxFlag ctx) : CtxFlag (ctxPause ctx) := by
  unfold ctxPause ExecCtx.modThis
  cases hd : ctx.detached with
  | none =>
    refine ⟨fun _ => fun _ => rfl, fun s2 hs2 => ?_⟩
    exact Option.noConfusion (show (none : Option ModelState) = some s2 from hs2)
  | some s =>
    refine ⟨fun hd2 => ?_, fun s2 hs2 => ?_⟩
    · have hd3 : (some ({ stopAndCancelTimer s with isPlaying := some false }) : Option ModelState) = none := hd2
      exact Option.noConfusion hd3
    · have hs3 : some ({ stopAndCancelTimer s with isPlaying := some false }) = some s2 := hs2
      have := Option.some.inj hs3
      rw [← this]
      show (stopAndCancelTimer s).canPlay = true
      rw [stopAndCancelTimer_canPlay]
      exact h.2 s hd

theorem ctxStop_flag (props : Props) (ctx : ExecCtx) : CtxFlag (ctxStop props ctx) := by
  unfold ctxStop
  cases hd : ctx.detached with
  | none =>
    refine ⟨fun hd2 => ?_, fun s2 hs2 => ?_⟩
    · exact Option.noConfusion (show (some _ : Option ModelState) = none from hd2)
    · have := Option.some.inj (show some _ = some s2 from hs2)
      rw [← this]
      exact reset_canPlay _ _
  | some s =>
    refine ⟨fun hd2 => ?_, fun s2 hs2 => ?_⟩
    · exact Option.noConfusion (show (some _ : Option ModelState) = none from hd2)
    · have := Option.some.inj (show some _ = some s2 from hs2)
      rw [← this]
      exact reset_canPlay _ _

theorem ctxComplete_flag (r : Int) (props : Props) (ctx : ExecCtx) :
    CtxFlag (ctxComplete r props ctx) :=
  ctxStop_flag props _

theorem CtxFlag_final {ctx : ExecCtx} (h : CtxFlag ctx) :
    flagInv (ctx.detached.getD ctx.loc) := by
  cases hd : ctx.detached with
  | none => exact h.1 hd
  | some s =>
    intro hcp
    have ht := h.2 s hd
    show s.isPlaying = some false
    rw [show (some s).getD ctx.loc = s from rfl] at hcp
    rw [ht] at hcp
    exact Bool.noConfusion hcp

theorem CtxFlag_pres (props : Props) (target : Int) (ss : Bool) :
    ∀ ctx : ExecCtx, CtxFlag ctx → CtxFlag (updateToTick props target ss ctx).1 := by
  apply updateToTick_pres
  · intro tick ctx h
    refine ⟨fun hd => ?_, h.2⟩
    have hl := h.1 hd
    show flagInv (checkCanPlay tick props.maxTime ctx.loc).2
    unfold checkCanPlay
    split
    · exact fun _ => rfl
    · exact hl
  · intro tick data ctx h
    exact applyCalls_pres props CtxFlag
      (fun _ hq => ctxPause_flag hq)
      (fun c _ => ctxStop_flag props c)
      (fun r c _ => ctxComplete_flag r props c) _ ctx h
  · intro tick data ctx h
    refine ⟨fun hd => ?_, h.2⟩
    have hl := h.1 hd
    show flagInv (cacheStep props tick data ctx.loc)
    intro hcp
    rw [(cacheStep_preserves props tick data ctx.loc).1] at hcp
    rw [(cacheStep_preserves props tick data ctx.loc).2.1]
    exact hl hcp
  · intro data tick ctx h
    exact ⟨fun hd => h.1 hd, h.2⟩
  · intro ctx h
    exact ⟨fun _ => fun _ => rfl, h.2⟩



theorem checkCanPlay_cases (tick maxTime : Int) (st : ModelState) :
    checkCanPlay tick maxTime st = (true, st)
    ∨ checkCanPlay tick maxTime st
        = (false, { st with canPlay := false, isPlaying := some false }) := by
  unfold checkCanPlay
  split
  · exact Or.inr rfl
  · exact Or.inl rfl

theorem setTick_flagInv {props : Props} {t : Int} {m : Machine}
    (h : flagInv m.state) : flagInv (setTick props t m).state := by
  show flagInv ((updateToTick props t true ⟨stopAndCancelTimer m.state, none⟩).1.detached.getD
    (updateToTick props t true ⟨stopAndCancelTimer m.state, none⟩).1.loc)
  apply CtxFlag_final
  apply CtxFlag_pres
  exact ⟨fun _ => stopAndCancelTimer_flagInv h,
    fun s hs => Option.noConfusion (show (none : Option ModelState) = some s from hs)⟩

theorem advance_flagInv {props : Props} {ts : Int} {m : Machine}
    (h : flagInv m.state) : flagInv (advance props ts m).state := by
  unfold advance
  dsimp only
  rcases checkCanPlay_cases m.state.tick props.maxTime m.state with hc | hc <;> rw [hc]
  · dsimp only
    rw [if_pos rfl]
    have h0 : ∀ st1 : ModelState, flagInv st1 →
        flagInv ((if st1.isPlaying = some true then
          ({ state := { st1 with timer := some m.nextHandle },
             nextHandle := m.nextHandle + 1 } : Machine)
          else { m with state := st1 }).state) := by
      intro st1 h1
      split
      · intro hcp
        exact h1 hcp
      · exact h1
    apply h0
    have hstep : ∀ st0 : ModelState, flagInv st0 →
        flagInv ((updateToTick props
          (({ st0 with time := some ts } : ModelState).tick + props.ticksPerAnimation) false
          ⟨{ st0 with time := some ts }, none⟩).1.detached.getD
          ((updateToTick props
            (({ st0 with time := some ts } : ModelState).tick + props.ticksPerAnimation) false
            ⟨{ st0 with time := some ts }, none⟩).1.loc)) := by
      intro st0 h1
      apply CtxFlag_final
      apply CtxFlag_pres
      exact ⟨fun _ => h1,
        fun s hs => Option.noConfusion (show (none : Option ModelState) = some s from hs)⟩
    split
    · split
      · exact hstep m.state h
      · exact h
    · split
      · exact hstep m.state h
      · exact h
  · dsimp only
    rw [if_neg (by simp)]
    exact fun _ => rfl

/-- C6 (amended): the implication "canPlay false implies isPlaying false" is
preserved by `pause`, `stop`, `setData`, `setParams`, `setTick` and the
clock callback `advance` — every public operation except `play`, which
sets `isPlaying := true` unconditionally (see the counterexample); the
next clock callback restores the invariant. -/
theorem flag_invariant_preserved (props : Props) (m : Machine) (h : flagInv m.state) :
    flagInv (pause m).state
    ∧ flagInv (stop props m).state
    ∧ (∀ d, flagInv (setData props d m).state)
    ∧ (∀ u, flagInv (setParams props u m).state)
    ∧ (∀ t, flagInv (setTick props t m).state)
    ∧ (∀ ts, flagInv (advance props ts m).state) := by
  refine ⟨fun _ => rfl, ?_, fun d => fun _ => rfl, fun u => h, fun t => setTick_flagInv h,
    fun ts => advance_flagInv h⟩
  intro hcp
  have hcp2 : (reset props
      (some { stopAndCancelTimer m.state with isPlaying := some false })).canPlay = false := hcp
  rw [reset_canPlay] at hcp2
  exact Bool.noConfusion hcp2



def CtxTimer (ctx : ExecCtx) : Prop :=
  ctx.loc.timer = none ∧ ∀ s, ctx.detached = some s → s.timer = none

theorem stopAndCancelTimer_of_none {st : ModelState} (h : st.timer = none) :
    stopAndCancelTimer st = st := by
  unfold stopAndCancelTimer
  rw [h]

theorem stopAndCancelTimer_timer {st : ModelState} (h : st.timer ≠ some 0) :
    (stopAndCancelTimer st).timer = none := by
  unfold stopAndCancelTimer
  cases ht : st.timer with
  | none => exact ht
  | some k =>
    have hk : k ≠ 0 := by rintro rfl; exact h ht
    show (if k ≠ 0 then ({ st with timer := none } : ModelState) else st).timer = none
    rw [if_pos hk]

theorem ctxPause_timer {ctx : ExecCtx} (h : CtxTimer ctx) : CtxTimer (ctxPause ctx) := by
  unfold ctxPause ExecCtx.modThis
  cases hd : ctx.detached with
  | none =>
    refine ⟨?_, fun s2 hs2 => Option.noConfusion
      (show (none : Option ModelState) = some s2 from hs2)⟩
    show (stopAndCancelTimer ctx.loc).timer = none
    rw [stopAndCancelTimer_of_none h.1]
    exact h.1
  | some s =>
    refine ⟨h.1, fun s2 hs2 => ?_⟩
    have := Option.some.inj (show some _ = some s2 from hs2)
    rw [← this]
    show (stopAndCancelTimer s).timer = none
    rw [stopAndCancelTimer_of_none (h.2 s hd)]
    exact h.2 s hd

theorem ctxStop_timer (props : Props) {ctx : ExecCtx} (h : CtxTimer ctx) :
    CtxTimer (ctxStop props ctx) := by
  unfold ctxStop
  cases hd : ctx.detached with
  | none =>
    refine ⟨?_, fun s2 hs2 => ?_⟩
    · show ({ stopAndCancelTimer ctx.loc with isPlaying := some false } : ModelState).timer = none
      show (stopAndCancelTimer ctx.loc).timer = none
      rw [stopAndCancelTimer_of_none h.1]
      exact h.1
    · have := Option.some.inj (show some _ = some s2 from hs2)
      rw [← this]
      exact reset_timer _ _
  | some s =>
    refine ⟨h.1, fun s2 hs2 => ?_⟩
    have := Option.some.inj (show some _ = some s2 from hs2)
    rw [← this]
    exact reset_timer _ _

theorem ctxComplete_timer (r : Int) (props : Props) {ctx : ExecCtx} (h : CtxTimer ctx) :
    CtxTimer (ctxComplete r props ctx) := by
  apply ctxStop_timer
  refine ⟨?_, h.2⟩
  show (completeCore r props ctx.loc).timer = none
  rw [completeCore_timer]
  exact h.1

theorem CtxTimer_pres (props : Props) (target : Int) (ss : Bool) :
    ∀ ctx : ExecCtx, CtxTimer ctx → CtxTimer (updateToTick props target ss ctx).1 := by
  apply updateToTick_pres
  · intro tick ctx h
    refine ⟨?_, h.2⟩
    show (checkCanPlay tick props.maxTime ctx.loc).2.timer = none
    unfold checkCanPlay
    split
    · exact h.1
    · exact h.1
  · intro tick data ctx h
    exact applyCalls_pres props CtxTimer
      (fun _ hq => ctxPause_timer hq)
      (fun _ hq => ctxStop_timer props hq)
      (fun r _ hq => ctxComplete_timer r props hq) _ ctx h
  · intro tick data ctx h
    refine ⟨?_, h.2⟩
    show (cacheStep props tick data ctx.loc).timer = none
    rw [(cacheStep_preserves props tick data ctx.loc).2.2.1]
    exact h.1
  · intro data tick ctx h
    exact ⟨h.1, h.2⟩
  · intro ctx h
    exact ⟨h.1, h.2⟩

theorem CtxTimer_final {ctx : ExecCtx} (h : CtxTimer ctx) :
    (ctx.detached.getD ctx.loc).timer = none := by
  cases hd : ctx.detached with
  | none => exact h.1
  | some s => exact h.2 s hd

/-- C5 (amended): `pause`, `stop` and `setTick` cancel any outstanding
scheduled callback (the timer handle is cleared, and stays cleared
through the mutation) — but `setParams` performs no cancellation at all
(see the counterexample).  The hypothesis that the timer handle is not 0
holds for every reachable state: the host hands out positive handles. -/
theorem cancel_before_mutate (props : Props) (m : Machine) (h : m.state.timer ≠ some 0) :
    (pause m).state.timer = none
    ∧ (stop props m).state.timer = none
    ∧ ∀ t, (setTick props t m).state.timer = none := by
  refine ⟨?_, ?_, ?_⟩
  · show (stopAndCancelTimer m.state).timer = none
    exact stopAndCancelTimer_timer h
  · exact reset_timer _ _
  · intro t
    show ((updateToTick props t true ⟨stopAndCancelTimer m.state, none⟩).1.detached.getD
      (updateToTick props t true ⟨stopAndCancelTimer m.state, none⟩).1.loc).timer = none
    apply CtxTimer_final
    apply CtxTimer_pres
    exact ⟨stopAndCancelTimer_timer h,
      fun s hs => Option.noConfusion (show (none : Option ModelState) = some s from hs)⟩



theorem setHas_iff {s : List Int} {k : Int} : setHas s k = true ↔ k ∈ s :=
  List.elem_iff

theorem setAdd_has {s : List Int} {k t : Int} (h : setHas s k = true) :
    setHas (setAdd s t) k = true := by
  unfold setAdd
  split
  · exact h
  · rw [setHas_iff] at h ⊢
    exact List.mem_append_left _ h

theorem setDelete_has {s : List Int} {k t : Int} (hk : k ≠ t)
    (h : setHas s k = true) : setHas (setDelete s t) k = true := by
  rw [setHas_iff] at h ⊢
  unfold setDelete
  rw [List.mem_filter]
  exact ⟨h, by simpa using hk⟩

theorem recHasKey_recSet {m : List (Int × Option Int)} {k t : Int} {v : Option Int}
    (h : recHasKey m k = true) : recHasKey (recSet m t v) k = true := by
  unfold recHasKey at h ⊢
  unfold recSet
  split
  · rw [List.any_eq_true] at h ⊢
    obtain ⟨kv, hmem, hk⟩ := h
    by_cases ht : kv.1 == t
    · refine ⟨(t, v), List.mem_map.mpr ⟨kv, hmem, by rw [if_pos ht]⟩, ?_⟩
      have h1 : kv.1 = k := by simpa using hk
      have h2 : kv.1 = t := by simpa using ht
      simp [← h1, h2]
    · exact ⟨kv, List.mem_map.mpr ⟨kv, hmem, by rw [if_neg ht]⟩, hk⟩
  · rw [List.any_eq_true] at h ⊢
    obtain ⟨kv, hmem, hk⟩ := h
    exact ⟨kv, List.mem_append_left _ hmem, hk⟩

theorem recHasKey_recDelete {m : List (Int × Option Int)} {k t : Int} (hk : k ≠ t)
    (h : recHasKey m k = true) : recHasKey (recDelete m t) k = true := by
  unfold recHasKey at h ⊢
  unfold recDelete
  rw [List.any_eq_true] at h ⊢
  obtain ⟨kv, hmem, hkv⟩ := h
  refine ⟨kv, List.mem_filter.mpr ⟨hmem, ?_⟩, hkv⟩
  have h1 : kv.1 = k := by simpa using hkv
  simp [h1, hk]

theorem cacheStep_zero {props : Props} {tick : Int} {data : Option Int} {st : ModelState}
    (h1 : setHas st.cachedDataKeys 0 = true)
    (h2 : recHasKey st.cachedData 0 = true) :
    setHas (cacheStep props tick data st).cachedDataKeys 0 = true
    ∧ recHasKey (cacheStep props tick data st).cachedData 0 = true := by
  unfold cacheStep
  dsimp only
  split
  · split
    · exact ⟨setAdd_has h1, recHasKey_recSet h2⟩
    · split
      · exact ⟨h1, recHasKey_recSet h2⟩
      · split
        · next toRemove rest _ hne =>
            exact ⟨setDelete_has (by omega) h1,
              recHasKey_recSet (recHasKey_recDelete (by omega) h2)⟩
        · exact ⟨h1, recHasKey_recSet h2⟩
  · exact ⟨h1, h2⟩



theorem cacheStep_evict_zero {props : Props} {tick : Int} {data : Option Int}
    {st : ModelState} {rest : List Int}
    (hq : st.cachedDataKeysQueue = 0 :: rest)
    (hsz : 0 < props.dataCacheSize)
    (hover : props.dataCacheSize < st.cachedDataKeysQueue.length + 1) :
    cacheStep props tick data st =
      { st with maxTick := tick,
                cachedDataKeysQueue := rest ++ [tick],
                cachedData := recSet st.cachedData tick data } := by
  have hover2 : ¬ ((st.cachedDataKeysQueue ++ [tick]).length ≤ props.dataCacheSize) := by
    rw [List.length_append]
    simp only [List.length_singleton]
    omega
  unfold cacheStep
  dsimp only
  rw [if_pos hsz, if_neg hover2, hq, List.cons_append]
  dsimp only
  rw [if_neg (by omega)]

theorem cacheStep_evict_nonzero {props : Props} {tick : Int} {data : Option Int}
    {st : ModelState} {t : Int} {rest : List Int}
    (ht : t ≠ 0)
    (hq : st.cachedDataKeysQueue = t :: rest)
    (hsz : 0 < props.dataCacheSize)
    (hover : props.dataCacheSize < st.cachedDataKeysQueue.length + 1) :
    cacheStep props tick data st =
      { st with maxTick := tick,
                cachedDataKeysQueue := rest ++ [tick],
                cachedDataKeys := setDelete st.cachedDataKeys t,
                cachedData := recSet (recDelete st.cachedData t) tick data } := by
  have hover2 : ¬ ((st.cachedDataKeysQueue ++ [tick]).length ≤ props.dataCacheSize) := by
    rw [List.length_append]
    simp only [List.length_singleton]
    omega
  unfold cacheStep
  dsimp only
  rw [if_pos hsz, if_neg hover2, hq, List.cons_append]
  dsimp only
  rw [if_pos ht]

def CtxZero (ctx : ExecCtx) : Prop :=
  setHas ctx.loc.cachedDataKeys 0 = true
  ∧ recHasKey ctx.loc.cachedData 0 = true
  ∧ ctx.detached = none

theorem CtxZero_pres (props : Props) (target : Int) (ss : Bool)
    (hnc : ∀ a, (props.updateData a).calls = []) :
    ∀ ctx : ExecCtx, CtxZero ctx → CtxZero (updateToTick props target ss ctx).1 := by
  apply updateToTick_pres
  · intro tick ctx h
    refine ⟨?_, ?_, h.2.2⟩
    · show setHas (checkCanPlay tick props.maxTime ctx.loc).2.cachedDataKeys 0 = true
      unfold checkCanPlay
      split
      · exact h.1
      · exact h.1
    · show recHasKey (checkCanPlay tick props.maxTime ctx.loc).2.cachedData 0 = true
      unfold checkCanPlay
      split
      · exact h.2.1
      · exact h.2.1
  · intro tick data ctx h
    rw [hnc (stepArgs ctx tick data)]
    exact h
  · intro tick data ctx h
    exact ⟨(cacheStep_zero h.1 h.2.1).1, (cacheStep_zero h.1 h.2.1).2, h.2.2⟩
  · intro data tick ctx h
    exact ⟨h.1, h.2.1, h.2.2⟩
  · intro ctx h
    exact ⟨h.1, h.2.1, h.2.2⟩

theorem stopAndCancelTimer_caches (st : ModelState) :
    (stopAndCancelTimer st).cachedDataKeys = st.cachedDataKeys
    ∧ (stopAndCancelTimer st).cachedData = st.cachedData := by
  rcases stopAndCancelTimer_cases st with h | h <;> rw [h] <;> exact ⟨rfl, rfl⟩

theorem setTick_zero_key {props : Props} (hnc : ∀ a, (props.updateData a).calls = [])
    {target : Int} {m : Machine}
    (h1 : setHas m.state.cachedDataKeys 0 = true)
    (h2 : recHasKey m.state.cachedData 0 = true) :
    setHas (setTick props target m).state.cachedDataKeys 0 = true
    ∧ recHasKey (setTick props target m).state.cachedData 0 = true := by
  have hinit : CtxZero ⟨stopAndCancelTimer m.state, none⟩ := by
    refine ⟨?_, ?_, rfl⟩
    · rw [show (⟨stopAndCancelTimer m.state, none⟩ : ExecCtx).loc = stopAndCancelTimer m.state
        from rfl, (stopAndCancelTimer_caches m.state).1]
      exact h1
    · rw [show (⟨stopAndCancelTimer m.state, none⟩ : ExecCtx).loc = stopAndCancelTimer m.state
        from rfl, (stopAndCancelTimer_caches m.state).2]
      exact h2
  have hres := CtxZero_pres props target true hnc _ hinit
  have hdet := hres.2.2
  constructor
  · show setHas ((updateToTick props target true ⟨stopAndCancelTimer m.state, none⟩).1.detached.getD
      (updateToTick props target true ⟨stopAndCancelTimer m.state, none⟩).1.loc).cachedDataKeys 0 = true
    rw [hdet]
    exact hres.1
  · show recHasKey ((updateToTick props target true ⟨stopAndCancelTimer m.state, none⟩).1.detached.getD
      (updateToTick props target true ⟨stopAndCancelTimer m.state, none⟩).1.loc).cachedData 0 = true
    rw [hdet]
    exact hres.2.1



/-- C5 witness: on a playing machine (timer handle 1), `pause`, `stop`
and `setTick` all leave no schedule handle behind. -/
theorem cancel_before_mutate_witness :
    (pause (play (Machine.init propsA))).state.timer = none
    ∧ (stop propsA (play (Machine.init propsA))).state.timer = none
    ∧ (setTick propsA 4 (play (Machine.init propsA))).state.timer = none := by
  have h := cancel_before_mutate propsA (play (Machine.init propsA)) (by decide)
  exact ⟨h.1, h.2.1, h.2.2 4⟩

/-- C6 witness: on the completed scenario run the invariant holds and is
preserved by `pause` and by a further clock callback. -/
theorem flag_invariant_preserved_witness :
    flagInv (pause runA).state ∧ flagInv (advance propsA 50 runA).state := by
  have h := flag_invariant_preserved propsA runA (fun _ => by decide)
  exact ⟨h.1, h.2.2.2.2.2 50⟩

/-- C10: in the eviction branch of the data-cache update, the evicted
oldest queued tick is deleted from `cachedData` and `cachedDataKeys` only
when it is nonzero (the `if (toRemove)` truthiness test): a queued tick 0
is shifted out of the queue but its entries persist — they survive every
subsequent cache update, and (for a transition function that uses no
capabilities) every subsequent `setTick`.  Tick 0 is cached when
`initialTick = -1`: concretely, with `dataCacheSize = 1`, after stepping
to tick 1 the queue is `[1]` while key 0 and its `cachedData` entry are
still present. -/
theorem zero_tick_eviction :
    (∀ (props : Props) (tick : Int) (data : Option Int) (st : ModelState),
      setHas st.cachedDataKeys 0 = true → recHasKey st.cachedData 0 = true →
      setHas (cacheStep props tick data st).cachedDataKeys 0 = true
      ∧ recHasKey (cacheStep props tick data st).cachedData 0 = true)
    ∧ (∀ (props : Props) (tick : Int) (data : Option Int) (st : ModelState)
        (rest : List Int),
      st.cachedDataKeysQueue = 0 :: rest → 0 < props.dataCacheSize →
      props.dataCacheSize < st.cachedDataKeysQueue.length + 1 →
      cacheStep props tick data st =
        { st with maxTick := tick, cachedDataKeysQueue := rest ++ [tick],
                  cachedData := recSet st.cachedData tick data })
    ∧ (∀ (props : Props) (tick : Int) (data : Option Int) (st : ModelState)
        (t : Int) (rest : List Int),
      t ≠ 0 → st.cachedDataKeysQueue = t :: rest → 0 < props.dataCacheSize →
      props.dataCacheSize < st.cachedDataKeysQueue.length + 1 →
      cacheStep props tick data st =
        { st with maxTick := tick, cachedDataKeysQueue := rest ++ [tick],
                  cachedDataKeys := setDelete st.cachedDataKeys t,
                  cachedData := recSet (recDelete st.cachedData t) tick data })
    ∧ (∀ props : Props, (∀ a, (props.updateData a).calls = []) →
      ∀ (target : Int) (m : Machine),
        setHas m.state.cachedDataKeys 0 = true →
        recHasKey m.state.cachedData 0 = true →
        setHas (setTick props target m).state.cachedDataKeys 0 = true
        ∧ recHasKey (setTick props target m).state.cachedData 0 = true)
    ∧ ((setTick propsZ 1 (Machine.init propsZ)).state.cachedDataKeysQueue = [1]
      ∧ (setTick propsZ 1 (Machine.init propsZ)).state.cachedDataKeys = [0]
      ∧ recHasKey (setTick propsZ 1 (Machine.init propsZ)).state.cachedData 0 = true
      ∧ recGet (setTick propsZ 1 (Machine.init propsZ)).state.cachedData 0 = some 1) := by
  refine ⟨fun props tick data st h1 h2 => cacheStep_zero h1 h2,
    fun props tick data st rest hq hsz hover => cacheStep_evict_zero hq hsz hover,
    fun props tick data st t rest ht hq hsz hover => cacheStep_evict_nonzero ht hq hsz hover,
    fun props hnc target m h1 h2 => setTick_zero_key hnc h1 h2,
    by decide⟩

/-- C10 witness: a further cache update on the state that still carries
the evicted tick 0 keeps key 0 present. -/
theorem zero_tick_eviction_witness :
    setHas (cacheStep propsZ 5 (some 9)
      (setTick propsZ 1 (Machine.init propsZ)).state).cachedDataKeys 0 = true := by
  exact (zero_tick_eviction.1 propsZ 5 (some 9)
    (setTick propsZ 1 (Machine.init propsZ)).state (by decide) (by decide)).1

end GameLoop
